import Mathlib

/-!
Verification of the options-data-api processing core (src/utils.ts,
src/data-processor.ts, src/types.ts) against its natural-language
specification.  JavaScript numbers are modelled as exact rationals; a numeric
field that may be NaN (absent or unparseable input) is modelled as
`Option ℚ` with `none` standing for NaN.
-/

namespace OptionsApi

/-- A JavaScript numeric field value: `none` models NaN (absent or
unparseable), `some q` a finite number modelled as an exact rational. -/
abbrev JSNum := Option ℚ

/-- JS Math.round on an exact rational: round half towards positive
infinity. -/
def mathRound (x : ℚ) : ℤ := ⌊x + 1 / 2⌋

/-- CONFIG.DECIMAL_PRECISION from src/types.ts. -/
def DECIMAL_PRECISION : ℕ := 4

/-- CONFIG.MAX_FILE_SIZE from src/types.ts: 50 MiB in bytes. -/
def MAX_FILE_SIZE : ℕ := 50 * 1024 * 1024

/-- The constant DECIMAL_MULTIPLIER = 10 ** CONFIG.DECIMAL_PRECISION computed
in validateContract (src/utils.ts line 94). -/
def DECIMAL_MULTIPLIER : ℚ := 10 ^ DECIMAL_PRECISION

/-- The rounding expression Math.round(value * DECIMAL_MULTIPLIER) /
DECIMAL_MULTIPLIER used for every rounded numeric field of a cleaned
contract (src/utils.ts lines 101-110). -/
def roundPrec (x : ℚ) : ℚ := (mathRound (x * DECIMAL_MULTIPLIER) : ℚ) / DECIMAL_MULTIPLIER

/-- JS expression `x || 0` on a numeric value: NaN and 0 are falsy and give
the literal 0; any other number is returned unchanged. -/
def orZero (x : JSNum) : ℚ :=
  match x with
  | none => 0
  | some v => if v = 0 then 0 else v

/-- Model of JS String.prototype.trim: strip leading and trailing
whitespace. -/
def jsTrim (s : String) : String :=
  ⟨((s.data.dropWhile Char.isWhitespace).reverse.dropWhile Char.isWhitespace).reverse⟩

/-- Model of JS String.prototype.toLowerCase on the ASCII inputs this
pipeline sees. -/
def jsToLower (s : String) : String := ⟨s.data.map Char.toLower⟩

/-- Model of JS String.prototype.toUpperCase on the ASCII inputs this
pipeline sees. -/
def jsToUpper (s : String) : String := ⟨s.data.map Char.toUpper⟩

/-- ProcessedCallPutType from src/types.ts: canonical option kind. -/
inductive CPType where
  | call
  | put
deriving DecidableEq

/-- RawOptionContract from src/types.ts: one row as delivered by the CSV
reader.  Numeric fields have already been run through Number() by parseCsv,
hence JSNum. -/
structure RawOptionContract where
  date : String
  act_symbol : String
  expiration : String
  strike : JSNum
  call_put : String
  bid : JSNum
  ask : JSNum
  vol : JSNum
  delta : JSNum
  gamma : JSNum
  theta : JSNum
  vega : JSNum
  rho : JSNum
deriving DecidableEq

/-- ProcessedOptionContract from src/types.ts: the cleaned record. -/
structure ProcessedOptionContract where
  date : String
  symbol : String
  expiration : String
  strike : ℚ
  type : CPType
  bid : ℚ
  ask : ℚ
  volume : ℚ
  delta : ℚ
  gamma : ℚ
  theta : ℚ
  vega : ℚ
  rho : ℚ
deriving DecidableEq

/-- The distinct error messages pushed by validateContract (src/utils.ts),
one constructor per push site, in source order. -/
inductive ValidationError where
  | missingCriticalFields
  | invalidStrike
  | invalidBid
  | invalidAsk
  | noBidOrAsk
  | invalidDateFormat
  | invalidCallPutType
deriving DecidableEq

/-- The single warning kind pushed by validateContract: unusual bid/ask
spread (src/utils.ts line 64). -/
inductive ValidationWarning where
  | unusualSpread
deriving DecidableEq

/-- ValidationResult from src/types.ts. -/
structure ValidationResult where
  isValid : Bool
  errors : List ValidationError
  warnings : List ValidationWarning
  cleanedData : Option ProcessedOptionContract
deriving DecidableEq

/-- normalizeCallPutType from src/utils.ts; `none` models the thrown
error. -/
def normalizeCallPutType (type : String) : Option CPType :=
  let normalized := jsTrim (jsToLower type)
  if normalized = "c" ∨ normalized = "call" then some CPType.call
  else if normalized = "p" ∨ normalized = "put" then some CPType.put
  else none

/-- The strike test `isNaN(strike) || strike <= 0` from src/utils.ts
line 50. -/
def strikeInvalid (x : JSNum) : Bool :=
  match x with
  | none => true
  | some v => decide (v ≤ 0)

/-- The bid/ask test `isNaN(x) || x < 0` from src/utils.ts lines 54 and
58. -/
def priceInvalid (x : JSNum) : Bool :=
  match x with
  | none => true
  | some v => decide (v < 0)

/-- The errors accumulated by the numeric stage of validateContract
(src/utils.ts lines 50-70), in push order: strike, bid, ask, then the
liveness rule `bid === 0 && ask === 0`. -/
def numericErrors (raw : RawOptionContract) : List ValidationError :=
  (if strikeInvalid raw.strike then [ValidationError.invalidStrike] else []) ++
  (if priceInvalid raw.bid then [ValidationError.invalidBid] else []) ++
  (if priceInvalid raw.ask then [ValidationError.invalidAsk] else []) ++
  (if raw.bid = some 0 ∧ raw.ask = some 0 then [ValidationError.noBidOrAsk] else [])

/-- The spread warning `bid > 0 && ask > 0 && bid >= ask` from src/utils.ts
line 63; every comparison against NaN is false. -/
def spreadWarnings (raw : RawOptionContract) : List ValidationWarning :=
  match raw.bid, raw.ask with
  | some b, some a => if 0 < b ∧ 0 < a ∧ a ≤ b then [ValidationWarning.unusualSpread] else []
  | _, _ => []

/-- Numeric value of a decimal digit character. -/
def digitVal (c : Char) : ℕ := c.toNat - '0'.toNat

/-- Combined model of the fixed-width regex test and the split into
year/month/day performed by isValidDate (src/utils.ts lines 122-132): on a
string matching \d\d\d\d-\d\d-\d\d return the three numeric fields, else
none. -/
def dateFields (s : String) : Option (ℕ × ℕ × ℕ) :=
  match s.data with
  | [y1, y2, y3, y4, h1, m1, m2, h2, d1, d2] =>
    if y1.isDigit ∧ y2.isDigit ∧ y3.isDigit ∧ y4.isDigit ∧ h1 = '-' ∧
       m1.isDigit ∧ m2.isDigit ∧ h2 = '-' ∧ d1.isDigit ∧ d2.isDigit then
      some (1000 * digitVal y1 + 100 * digitVal y2 + 10 * digitVal y3 + digitVal y4,
            10 * digitVal m1 + digitVal m2,
            10 * digitVal d1 + digitVal d2)
    else none
  | _ => none

/-- Gregorian leap-year rule, as implemented by the JS Date calendar. -/
def isLeapYear (y : ℕ) : Bool := (y % 4 = 0 ∧ y % 100 ≠ 0) ∨ y % 400 = 0

/-- Number of days in month m of year y (1-based month). -/
def daysInMonth (y m : ℕ) : ℕ :=
  if m = 2 then (if isLeapYear y then 29 else 28)
  else if m = 4 ∨ m = 6 ∨ m = 9 ∨ m = 11 then 30
  else 31

/-- Model of the JS Date construction and read-back in isValidDate
(src/utils.ts lines 142-143) for arguments already known to satisfy
1 ≤ m ≤ 12 and 1 ≤ d ≤ 31: a day count exceeding the month length rolls
over into the following month (at most 3 days, so never further). -/
def jsDateNormalize (y m d : ℕ) : ℕ × ℕ × ℕ :=
  if d ≤ daysInMonth y m then (y, m, d)
  else if m = 12 then (y + 1, 1, d - daysInMonth y m)
  else (y, m + 1, d - daysInMonth y m)

/-- isValidDate from src/utils.ts: pattern test, numeric bounds, then the
calendar round-trip through Date construction. -/
def isValidDate (dateString : String) : Bool :=
  match dateFields dateString with
  | none => false
  | some (year, month, day) =>
    if year < 1000 ∨ month < 1 ∨ month > 12 ∨ day < 1 ∨ day > 31 then false
    else decide (jsDateNormalize year month day = (year, month, day))

/-- The cleaned contract built at src/utils.ts lines 97-111.  This branch is
reached only when strike, bid and ask are not NaN, so the getD defaults are
never observed. -/
def cleanContract (raw : RawOptionContract) (type : CPType) : ProcessedOptionContract :=
  { date := jsTrim raw.date
    symbol := jsToUpper (jsTrim raw.act_symbol)
    expiration := jsTrim raw.expiration
    strike := roundPrec (raw.strike.getD 0)
    type := type
    bid := roundPrec (raw.bid.getD 0)
    ask := roundPrec (raw.ask.getD 0)
    volume := max 0 (orZero raw.vol)
    delta := roundPrec (orZero raw.delta)
    gamma := roundPrec (orZero raw.gamma)
    theta := roundPrec (orZero raw.theta)
    vega := roundPrec (orZero raw.vega)
    rho := roundPrec (orZero raw.rho) }

/-- validateContract from src/utils.ts: critical-field gate, numeric stage,
date stage, option-kind stage, then construction of the cleaned record. -/
def validateContract (raw : RawOptionContract) : ValidationResult :=
  if jsTrim raw.act_symbol = "" ∨ raw.date = "" ∨ raw.expiration = "" then
    ⟨false, [ValidationError.missingCriticalFields], [], none⟩
  else if numericErrors raw ≠ [] then
    ⟨false, numericErrors raw, spreadWarnings raw, none⟩
  else if ¬(isValidDate raw.date = true ∧ isValidDate raw.expiration = true) then
    ⟨false, [ValidationError.invalidDateFormat], spreadWarnings raw, none⟩
  else
    match normalizeCallPutType raw.call_put with
    | none => ⟨false, [ValidationError.invalidCallPutType], spreadWarnings raw, none⟩
    | some ty => ⟨true, [], spreadWarnings raw, some (cleanContract raw ty)⟩

/-- compareContracts from src/utils.ts lines 282-295: negative when a sorts
before b; the tertiary key returns the strike difference. -/
def compareContracts (a b : ProcessedOptionContract) : ℚ :=
  if a.expiration ≠ b.expiration then (if a.expiration < b.expiration then -1 else 1)
  else if a.type ≠ b.type then (if a.type = CPType.call then -1 else 1)
  else a.strike - b.strike

/-- The sorting relation induced by compareContracts: a may precede b exactly
when the comparator is non-positive.  JS Array.prototype.sort is a stable
sort with respect to this relation; it is modelled by List.mergeSort. -/
def contractLE (a b : ProcessedOptionContract) : Bool :=
  decide (compareContracts a b ≤ 0)

/-- One step of the first pass of groupBySymbol (src/utils.ts lines 259-269):
push contract c onto the entry for its symbol, creating the entry at the end
when absent — JS Map iteration is in key-insertion order, so the map is an
association list. -/
def groupInsert : List (String × List ProcessedOptionContract) → ProcessedOptionContract →
    List (String × List ProcessedOptionContract)
  | [], c => [(c.symbol, [c])]
  | (k, g) :: rest, c =>
    if k = c.symbol then (k, g ++ [c]) :: rest
    else (k, g) :: groupInsert rest c

/-- groupBySymbol from src/utils.ts lines 253-280: one grouping pass, then a
stable sort of each group that has more than one member. -/
def groupBySymbol (contracts : List ProcessedOptionContract) :
    List (String × List ProcessedOptionContract) :=
  (contracts.foldl groupInsert []).map fun e =>
    (e.1, if e.2.length > 1 then e.2.mergeSort contractLE else e.2)

/-- Map.get on the symbol map, defaulting to the empty group for an absent
key. -/
def lookupGroup (m : List (String × List ProcessedOptionContract)) (k : String) :
    List ProcessedOptionContract :=
  match m with
  | [] => []
  | (k', g) :: rest => if k' = k then g else lookupGroup rest k

/-- Key list of the symbol map, in insertion order. -/
def keysOf (m : List (String × List ProcessedOptionContract)) : List String :=
  m.map fun e => e.1

/-- The two failure modes of writeJsonFile (src/utils.ts lines 162-179): the
size-ceiling rejection thrown before the sink is touched, and a wrapped
fs.writeFile failure. -/
inductive WriteFailure where
  | tooLarge (size : ℕ)
  | writeFailed
deriving DecidableEq

/-- writeJsonFile from src/utils.ts, over an abstract sink that either
accepts or rejects the write; returns the byte size on success.  The size
ceiling is checked before the sink write is attempted. -/
def writeJsonFile (sinkOk : Bool) (bufferLen : ℕ) : Except WriteFailure ℕ :=
  if bufferLen > MAX_FILE_SIZE then Except.error (WriteFailure.tooLarge bufferLen)
  else if sinkOk then Except.ok bufferLen
  else Except.error WriteFailure.writeFailed

/-- Whether one call of writeJsonFile reaches the underlying fs.writeFile:
false exactly when the size ceiling rejects the payload first. -/
def writeAttempted (bufferLen : ℕ) : Bool := decide (bufferLen ≤ MAX_FILE_SIZE)

/-- The loop of retry from src/utils.ts lines 389-411, made pure: op n is the
outcome of attempt n (0-based), remaining counts the retries still allowed.
Returns the final outcome, the number of attempts made, and the backoff
delays (baseDelay * 2 ^ attempt milliseconds) slept between attempts. -/
def retryAttempts (op : ℕ → Except E A) (baseDelay : ℕ) :
    ℕ → ℕ → Except E A × ℕ × List ℕ
  | attempt, 0 =>
    match op attempt with
    | Except.ok a => (Except.ok a, 1, [])
    | Except.error e => (Except.error e, 1, [])
  | attempt, r + 1 =>
    match op attempt with
    | Except.ok a => (Except.ok a, 1, [])
    | Except.error _ =>
      let rest := retryAttempts op baseDelay (attempt + 1) r
      (rest.1, rest.2.1 + 1, baseDelay * 2 ^ attempt :: rest.2.2)

/-- retry from src/utils.ts: attempts 0 through maxRetries, sleeping
baseDelay * 2 ^ attempt after each failed attempt that is not the last, and
rethrowing the last error after the final attempt.  Source defaults are
maxRetries = 3, baseDelay = 1000. -/
def retry (op : ℕ → Except E A) (maxRetries baseDelay : ℕ) : Except E A × ℕ × List ℕ :=
  retryAttempts op baseDelay 0 maxRetries

/-- The error taxonomy of ProcessingError.type from src/types.ts. -/
inductive ProcErrorType where
  | validation
  | file_read
  | file_write
  | data_parse
  | memory
  | unknown
deriving DecidableEq

/-- ProcessingError from src/types.ts, restricted to the fields the claims
are about. -/
structure ProcessingError where
  type : ProcErrorType
  symbol : Option String
deriving DecidableEq

/-- SymbolProcessingResult from src/types.ts; the error message is modelled
by the WriteFailure that produced it. -/
structure SymbolProcessingResult where
  symbol : String
  success : Bool
  contractCount : ℕ
  fileSize : ℕ
  error : Option WriteFailure
deriving DecidableEq

/-- processSymbol from src/data-processor.ts lines 293-337: serialize the
symbol data (its byte size given by bufLen), write it through retry with the
source defaults, and either return a successful result or propagate the
failure.  sinkOk gives the per-key sink behavior (a permanently failing key
fails every attempt). -/
def processSymbol (sinkOk : String → Bool) (bufLen : String → ℕ)
    (symbol : String) (contracts : List ProcessedOptionContract) :
    Except WriteFailure SymbolProcessingResult :=
  match (retry (fun _ => writeJsonFile (sinkOk symbol) (bufLen symbol)) 3 1000).1 with
  | Except.ok size => Except.ok ⟨symbol, true, contracts.length, size, none⟩
  | Except.error e => Except.error e

/-- The per-key settlement step of processSymbols (src/data-processor.ts
lines 249-274): a fulfilled promise contributes its result, a rejected one
is converted into a failed result for tracking. -/
def keyResult (sinkOk : String → Bool) (bufLen : String → ℕ)
    (e : String × List ProcessedOptionContract) : SymbolProcessingResult :=
  match processSymbol sinkOk bufLen e.1 e.2 with
  | Except.ok r => r
  | Except.error er => ⟨e.1, false, 0, 0, some er⟩

/-- processSymbols from src/data-processor.ts lines 225-288: one result per
key, in key order (Promise.allSettled settles a whole wave and results are
pushed in batch-index order, so the wave structure does not affect the
result sequence). -/
def processSymbols (sinkOk : String → Bool) (bufLen : String → ℕ)
    (m : List (String × List ProcessedOptionContract)) : List SymbolProcessingResult :=
  m.map (keyResult sinkOk bufLen)

/-- The ProcessingErrors recorded into stats.errors by processSymbols for
rejected keys: type file_write, tagged with the key. -/
def processErrors (sinkOk : String → Bool) (bufLen : String → ℕ)
    (m : List (String × List ProcessedOptionContract)) : List ProcessingError :=
  (m.filter fun e => !(keyResult sinkOk bufLen e).success).map fun e =>
    ⟨ProcErrorType.file_write, some e.1⟩

/-- The default JS Array.prototype.sort comparator on strings. -/
def stringLE (a b : String) : Bool := decide (a ≤ b)

/-- The coverage part of ApiMetadata from src/types.ts that the claims are
about. -/
structure ApiMetadata where
  symbolCount : ℕ
  totalContracts : ℕ
  calls : ℕ
  puts : ℕ
  symbolsWithData : ℕ
deriving DecidableEq

/-- generateApiFiles from src/data-processor.ts lines 342-409: the sorted
key-index artifact and the metadata artifact.  symbolCount and
coverage.symbolsWithData both count the successful persistence results;
the index lists every partition key regardless of persistence outcome. -/
def generateApiFiles (m : List (String × List ProcessedOptionContract))
    (results : List SymbolProcessingResult) : List String × ApiMetadata :=
  let successfulResults := results.filter fun r => r.success
  let symbols := (keysOf m).mergeSort stringLE
  let totalContracts := (m.map fun e => e.2.length).sum
  let calls := (m.map fun e => (e.2.filter fun c => c.type = CPType.call).length).sum
  (symbols,
   { symbolCount := successfulResults.length
     totalContracts := totalContracts
     calls := calls
     puts := totalContracts - calls
     symbolsWithData := successfulResults.length })

/-! Concrete inputs used by witnesses and counterexamples. -/

/-- A fully valid raw row. -/
def rawCall : RawOptionContract :=
  { date := "2023-02-28", act_symbol := "aapl", expiration := "2023-03-17",
    strike := some 150, call_put := "Call", bid := some 1, ask := some 2,
    vol := some 10, delta := some (1 / 2), gamma := none, theta := none,
    vega := none, rho := none }

/-- A valid raw row whose volume field carries the fractional value 5/2. -/
def rawFrac : RawOptionContract :=
  { date := "2023-02-28", act_symbol := "AAPL", expiration := "2023-03-17",
    strike := some 150, call_put := "C", bid := some 1, ask := some 2,
    vol := some (5 / 2), delta := none, gamma := none, theta := none,
    vega := none, rho := none }

/-- A raw row whose strike, bid and ask are all NaN. -/
def rawBadNums : RawOptionContract :=
  { date := "2023-02-28", act_symbol := "AAPL", expiration := "2023-03-17",
    strike := none, call_put := "C", bid := none, ask := none,
    vol := none, delta := none, gamma := none, theta := none,
    vega := none, rho := none }

/-- Builder for cleaned contracts used in partitioning examples. -/
def mkP (sym exp : String) (ty : CPType) (strike bid : ℚ) : ProcessedOptionContract :=
  { date := "2023-02-28", symbol := sym, expiration := exp, strike := strike, type := ty,
    bid := bid, ask := 2, volume := 0, delta := 0, gamma := 0, theta := 0, vega := 0, rho := 0 }

/-- First of two comparator-tied records for symbol A. -/
def pA1 : ProcessedOptionContract := mkP "A" "2024-01-19" CPType.call 10 1

/-- Second of two comparator-tied records for symbol A; differs from pA1 only
in its bid. -/
def pA2 : ProcessedOptionContract := mkP "A" "2024-01-19" CPType.call 10 2

/-- A record for symbol B with an earlier expiration. -/
def pB1 : ProcessedOptionContract := mkP "B" "2023-12-15" CPType.put 5 1

/-! Helper lemmas about the validator. -/

theorem mathRound_intCast (z : ℤ) : mathRound (z : ℚ) = z := by
  unfold mathRound
  rw [Int.floor_int_add]
  norm_num

theorem roundPrec_idem (x : ℚ) : roundPrec (roundPrec x) = roundPrec x := by
  have hM : DECIMAL_MULTIPLIER ≠ 0 := by
    norm_num [DECIMAL_MULTIPLIER, DECIMAL_PRECISION]
  unfold roundPrec
  rw [div_mul_cancel₀ _ hM, mathRound_intCast]

/-- A cleaned record arises only from the final branch of validateContract:
the option kind normalized and the record built by cleanContract. -/
theorem cleanedData_inversion (raw : RawOptionContract) (c : ProcessedOptionContract)
    (h : (validateContract raw).cleanedData = some c) :
    ∃ ty, normalizeCallPutType raw.call_put = some ty ∧ c = cleanContract raw ty := by
  unfold validateContract at h
  split at h
  · simp at h
  · split at h
    · simp at h
    · split at h
      · simp at h
      · rcases hn : normalizeCallPutType raw.call_put with _ | ty <;> rw [hn] at h
        · simp at h
        · simp only [Option.some.injEq] at h
          exact ⟨ty, rfl, h.symm⟩

theorem numericErrors_count_strike (raw : RawOptionContract) :
    (numericErrors raw).count ValidationError.invalidStrike
      = if strikeInvalid raw.strike then 1 else 0 := by
  unfold numericErrors
  split_ifs <;> decide

theorem numericErrors_count_bid (raw : RawOptionContract) :
    (numericErrors raw).count ValidationError.invalidBid
      = if priceInvalid raw.bid then 1 else 0 := by
  unfold numericErrors
  split_ifs <;> decide

theorem numericErrors_count_ask (raw : RawOptionContract) :
    (numericErrors raw).count ValidationError.invalidAsk
      = if priceInvalid raw.ask then 1 else 0 := by
  unfold numericErrors
  split_ifs <;> decide

theorem numericErrors_ne_nil_of_strike (raw : RawOptionContract)
    (h : strikeInvalid raw.strike = true) : numericErrors raw ≠ [] := by
  unfold numericErrors
  rw [h]
  simp

theorem numericErrors_ne_nil_of_bid (raw : RawOptionContract)
    (h : priceInvalid raw.bid = true) : numericErrors raw ≠ [] := by
  unfold numericErrors
  rw [h]
  rcases strikeInvalid raw.strike <;> simp

theorem numericErrors_ne_nil_of_ask (raw : RawOptionContract)
    (h : priceInvalid raw.ask = true) : numericErrors raw ≠ [] := by
  unfold numericErrors
  rw [h]
  rcases strikeInvalid raw.strike <;> rcases priceInvalid raw.bid <;> simp

theorem numericErrors_rawCall : numericErrors rawCall = [] := by
  simp only [numericErrors, strikeInvalid, priceInvalid, rawCall]
  norm_num

theorem validateContract_rawCall_cleaned :
    (validateContract rawCall).cleanedData = some (cleanContract rawCall CPType.call) := by
  have h3 : normalizeCallPutType rawCall.call_put = some CPType.call := by
    simp only [rawCall]
    decide
  unfold validateContract
  rw [if_neg (by simp only [rawCall]; decide), if_neg (by simp [numericErrors_rawCall]),
    if_neg (by simp only [rawCall]; decide), h3]

theorem numericErrors_rawFrac : numericErrors rawFrac = [] := by
  simp only [numericErrors, strikeInvalid, priceInvalid, rawFrac]
  norm_num

theorem validateContract_rawFrac_cleaned :
    (validateContract rawFrac).cleanedData = some (cleanContract rawFrac CPType.call) := by
  have h3 : normalizeCallPutType rawFrac.call_put = some CPType.call := by
    simp only [rawFrac]
    decide
  unfold validateContract
  rw [if_neg (by simp only [rawFrac]; decide), if_neg (by simp [numericErrors_rawFrac]),
    if_neg (by simp only [rawFrac]; decide), h3]

theorem rawFrac_volume : (cleanContract rawFrac CPType.call).volume = 5 / 2 := by
  simp only [cleanContract, rawFrac, orZero]
  rw [if_neg (by norm_num), max_eq_right (by norm_num)]

/-- Past the critical-field gate, the returned error list is either the
numeric-stage list or one of the three later single-error lists (with the
numeric stage known clean). -/
theorem validateContract_errors_cases (raw : RawOptionContract)
    (h : ¬(jsTrim raw.act_symbol = "" ∨ raw.date = "" ∨ raw.expiration = "")) :
    (validateContract raw).errors = numericErrors raw ∨
    (numericErrors raw = [] ∧
      ((validateContract raw).errors = [ValidationError.invalidDateFormat] ∨
       (validateContract raw).errors = [ValidationError.invalidCallPutType] ∨
       (validateContract raw).errors = [])) := by
  unfold validateContract
  rw [if_neg h]
  by_cases h1 : numericErrors raw ≠ []
  · rw [if_pos h1]
    exact Or.inl rfl
  · rw [if_neg h1]
    by_cases h2 : ¬(isValidDate raw.date = true ∧ isValidDate raw.expiration = true)
    · rw [if_pos h2]
      exact Or.inr ⟨not_not.mp h1, Or.inl rfl⟩
    · rw [if_neg h2]
      rcases hn : normalizeCallPutType raw.call_put with _ | ty <;>
        simp [hn, not_not.mp h1]

/-- C6: past the critical-field presence gate, the strike, bid and ask
checks are independent: each failing field contributes exactly one
corresponding error, and a record with all three numeric fields malformed is
rejected with all three errors present simultaneously. -/
theorem numeric_field_errors_independent (raw : RawOptionContract)
    (h : ¬(jsTrim raw.act_symbol = "" ∨ raw.date = "" ∨ raw.expiration = "")) :
    ((validateContract raw).errors.count ValidationError.invalidStrike
        = if strikeInvalid raw.strike then 1 else 0) ∧
    ((validateContract raw).errors.count ValidationError.invalidBid
        = if priceInvalid raw.bid then 1 else 0) ∧
    ((validateContract raw).errors.count ValidationError.invalidAsk
        = if priceInvalid raw.ask then 1 else 0) ∧
    (strikeInvalid raw.strike = true → priceInvalid raw.bid = true →
      priceInvalid raw.ask = true →
      (validateContract raw).isValid = false ∧
      (validateContract raw).errors = [ValidationError.invalidStrike,
        ValidationError.invalidBid, ValidationError.invalidAsk]) := by
  have hcases := validateContract_errors_cases raw h
  refine ⟨?_, ?_, ?_, ?_⟩
  · rcases hcases with he | ⟨hnil, he⟩
    · rw [he, numericErrors_count_strike]
    · have hs : strikeInvalid raw.strike = false := by
        by_contra hs
        exact numericErrors_ne_nil_of_strike raw (by simpa using hs) hnil
      rcases he with he | he | he <;> rw [he, hs] <;> decide
  · rcases hcases with he | ⟨hnil, he⟩
    · rw [he, numericErrors_count_bid]
    · have hs : priceInvalid raw.bid = false := by
        by_contra hs
        exact numericErrors_ne_nil_of_bid raw (by simpa using hs) hnil
      rcases he with he | he | he <;> rw [he, hs] <;> decide
  · rcases hcases with he | ⟨hnil, he⟩
    · rw [he, numericErrors_count_ask]
    · have hs : priceInvalid raw.ask = false := by
        by_contra hs
        exact numericErrors_ne_nil_of_ask raw (by simpa using hs) hnil
      rcases he with he | he | he <;> rw [he, hs] <;> decide
  · intro hs hb ha
    have hb0 : raw.bid ≠ some 0 := by
      intro hx
      rw [hx] at hb
      exact absurd hb (by decide)
    have hlist : numericErrors raw = [ValidationError.invalidStrike,
        ValidationError.invalidBid, ValidationError.invalidAsk] := by
      unfold numericErrors
      simp [hs, hb, ha, hb0]
    have hne : numericErrors raw ≠ [] := by rw [hlist]; simp
    constructor
    · unfold validateContract
      rw [if_neg h, if_pos hne]
    · unfold validateContract
      rw [if_neg h, if_pos hne]
      exact hlist

/-- C6 witness: a row with NaN strike, bid and ask yields exactly the three
numeric-field errors. -/
theorem numeric_field_errors_independent_witness :
    ¬(jsTrim rawBadNums.act_symbol = "" ∨ rawBadNums.date = "" ∨ rawBadNums.expiration = "") ∧
    (validateContract rawBadNums).isValid = false ∧
    (validateContract rawBadNums).errors = [ValidationError.invalidStrike,
      ValidationError.invalidBid, ValidationError.invalidAsk] :=
  ⟨by simp only [rawBadNums]; decide,
   (numeric_field_errors_independent rawBadNums (by simp only [rawBadNums]; decide)).2.2.2
     (by simp only [rawBadNums]; decide) (by simp only [rawBadNums]; decide)
     (by simp only [rawBadNums]; decide)⟩

/-- C3 (amended): an accepted record's volume is a non-negative rational,
equal to 0 whenever the raw volume is NaN (absent or unparseable) and equal
to max 0 v when the raw volume is the number v; it need not be an
integer. -/
theorem cleaned_volume_nonneg (raw : RawOptionContract) (c : ProcessedOptionContract)
    (h : (validateContract raw).cleanedData = some c) :
    0 ≤ c.volume ∧ (raw.vol = none → c.volume = 0) ∧
    (∀ v : ℚ, raw.vol = some v → c.volume = max 0 v) := by
  obtain ⟨ty, -, rfl⟩ := cleanedData_inversion raw c h
  refine ⟨by simp [cleanContract], ?_, ?_⟩
  · intro hv
    simp [cleanContract, orZero, hv]
  · intro v hv
    simp only [cleanContract, orZero, hv]
    split
    · simp_all
    · rfl

/-- C3 counterexample: a raw row whose volume parses to 5/2 is accepted and
its cleaned volume is 5/2, which is not an integer — refuting the claim
that the volume field is always an integer. -/
theorem cleaned_volume_not_integer :
    (validateContract rawFrac).cleanedData = some (cleanContract rawFrac CPType.call) ∧
    (cleanContract rawFrac CPType.call).volume = 5 / 2 ∧
    ¬ ∃ n : ℤ, ((n : ℚ) = (cleanContract rawFrac CPType.call).volume) := by
  refine ⟨validateContract_rawFrac_cleaned, rawFrac_volume, ?_⟩
  rintro ⟨n, hn⟩
  rw [rawFrac_volume] at hn
  have h2 : (2 : ℚ) * (n : ℚ) = 5 := by
    rw [hn]
    norm_num
  have h3 : (2 : ℤ) * n = 5 := by exact_mod_cast h2
  omega

/-- C3 witness: the amended statement applied to a concrete accepted row. -/
theorem cleaned_volume_nonneg_witness :
    (validateContract rawCall).cleanedData = some (cleanContract rawCall CPType.call) ∧
    0 ≤ (cleanContract rawCall CPType.call).volume :=
  ⟨validateContract_rawCall_cleaned,
   (cleaned_volume_nonneg rawCall (cleanContract rawCall CPType.call)
     validateContract_rawCall_cleaned).1⟩

/-- C9: the rounding used by the validator is idempotent, so every rounded
numeric field of an accepted record is a fixed point of roundPrec and
re-rounding an already-validated record changes nothing. -/
theorem roundPrec_idempotent_on_cleaned (raw : RawOptionContract)
    (c : ProcessedOptionContract) (h : (validateContract raw).cleanedData = some c) :
    roundPrec c.strike = c.strike ∧ roundPrec c.bid = c.bid ∧ roundPrec c.ask = c.ask ∧
    roundPrec c.delta = c.delta ∧ roundPrec c.gamma = c.gamma ∧
    roundPrec c.theta = c.theta ∧ roundPrec c.vega = c.vega ∧ roundPrec c.rho = c.rho := by
  obtain ⟨ty, -, rfl⟩ := cleanedData_inversion raw c h
  simp [cleanContract, roundPrec_idem]

/-- C9 witness: idempotence of the rounding on a concrete accepted row. -/
theorem roundPrec_idempotent_on_cleaned_witness :
    (validateContract rawCall).cleanedData = some (cleanContract rawCall CPType.call) ∧
    roundPrec (cleanContract rawCall CPType.call).strike
      = (cleanContract rawCall CPType.call).strike :=
  ⟨validateContract_rawCall_cleaned,
   (roundPrec_idempotent_on_cleaned rawCall (cleanContract rawCall CPType.call)
     validateContract_rawCall_cleaned).1⟩

/-- C7: the calendar-date predicate accepts a string exactly when it matches
the fixed-width YYYY-MM-DD pattern, its year is at least 1000, its month
lies in [1,12], its day lies in [1,31], and reconstructing a calendar date
from the three fields yields them back; in particular 2023-02-30 and
2023-02-29 are rejected while 2023-02-28 and 2024-02-29 are accepted. -/
theorem isValidDate_spec :
    (∀ s : String, isValidDate s = true ↔
      ∃ y m d, dateFields s = some (y, m, d) ∧ 1000 ≤ y ∧ 1 ≤ m ∧ m ≤ 12 ∧
        1 ≤ d ∧ d ≤ 31 ∧ jsDateNormalize y m d = (y, m, d)) ∧
    isValidDate "2023-02-30" = false ∧ isValidDate "2023-02-29" = false ∧
    isValidDate "2023-02-28" = true ∧ isValidDate "2024-02-29" = true := by
  refine ⟨?_, by decide, by decide, by decide, by decide⟩
  intro s
  unfold isValidDate
  rcases hf : dateFields s with _ | ⟨y, m, d⟩
  · simp
  · simp only [hf]
    constructor
    · intro h
      by_cases hb : y < 1000 ∨ m < 1 ∨ m > 12 ∨ d < 1 ∨ d > 31
      · rw [if_pos hb] at h
        exact absurd h (by simp)
      · rw [if_neg hb] at h
        push_neg at hb
        exact ⟨y, m, d, rfl, by omega, by omega, by omega, by omega, by omega,
          of_decide_eq_true h⟩
    · rintro ⟨y', m', d', he, h1, h2, h3, h4, h5, h6⟩
      obtain ⟨rfl, rfl, rfl⟩ : y = y' ∧ m = m' ∧ d = d' := by
        have := Option.some_inj.mp he
        exact ⟨congrArg Prod.fst this, congrArg Prod.fst (congrArg Prod.snd this),
          congrArg Prod.snd (congrArg Prod.snd this)⟩
      rw [if_neg (by omega)]
      exact decide_eq_true h6

/-! Lemmas about the retry helper. -/

theorem retryAttempts_ok (op : ℕ → Except E A) (b a : ℕ) (v : A) (r : ℕ)
    (h : op a = Except.ok v) :
    retryAttempts op b a r = (Except.ok v, 1, []) := by
  cases r <;> unfold retryAttempts <;> rw [h]

theorem retryAttempts_err_zero (op : ℕ → Except E A) (b a : ℕ) (e : E)
    (h : op a = Except.error e) :
    retryAttempts op b a 0 = (Except.error e, 1, []) := by
  unfold retryAttempts
  rw [h]

theorem retryAttempts_err_succ (op : ℕ → Except E A) (b a r : ℕ) (e : E)
    (h : op a = Except.error e) :
    retryAttempts op b a (r + 1) =
      ((retryAttempts op b (a + 1) r).1, (retryAttempts op b (a + 1) r).2.1 + 1,
       b * 2 ^ a :: (retryAttempts op b (a + 1) r).2.2) := by
  conv_lhs => rw [retryAttempts]
  rw [h]

theorem retryAttempts_count_le (op : ℕ → Except E A) (b : ℕ) :
    ∀ (r a : ℕ), (retryAttempts op b a r).2.1 ≤ r + 1 := by
  intro r
  induction r with
  | zero =>
    intro a
    cases h : op a with
    | ok v =>
      rw [retryAttempts_ok op b a v 0 h]
    | error e =>
      rw [retryAttempts_err_zero op b a e h]
  | succ r ih =>
    intro a
    cases h : op a with
    | ok v =>
      rw [retryAttempts_ok op b a v (r + 1) h]
      simp
    | error e =>
      rw [retryAttempts_err_succ op b a r e h]
      have := ih (a + 1)
      simpa using Nat.add_le_add_right this 1

theorem range_map_delay (b a k : ℕ) :
    (List.range (k + 1)).map (fun i => b * 2 ^ (a + i)) =
      b * 2 ^ a :: (List.range k).map (fun i => b * 2 ^ (a + 1 + i)) := by
  rw [List.range_succ_eq_map, List.map_cons, List.map_map]
  refine congrArg₂ _ (by simp) ?_
  apply List.map_congr_left
  intro i _
  simp only [Function.comp_apply]
  have hx : a + Nat.succ i = a + 1 + i := by omega
  rw [hx]

theorem retryAttempts_first_ok (op : ℕ → Except E A) (b : ℕ) :
    ∀ (k r a : ℕ) (v : A), k ≤ r →
      (∀ i, i < k → ∃ e, op (a + i) = Except.error e) →
      op (a + k) = Except.ok v →
      retryAttempts op b a r =
        (Except.ok v, k + 1, (List.range k).map fun i => b * 2 ^ (a + i)) := by
  intro k
  induction k with
  | zero =>
    intro r a v _ _ hok
    rw [Nat.add_zero] at hok
    rw [retryAttempts_ok op b a v r hok]
    simp
  | succ k ih =>
    intro r a v hkr hfail hok
    obtain ⟨e, he⟩ := hfail 0 (Nat.succ_pos k)
    rw [Nat.add_zero] at he
    obtain ⟨r', rfl⟩ : ∃ r', r = r' + 1 := ⟨r - 1, by omega⟩
    rw [retryAttempts_err_succ op b a r' e he]
    have hstep := ih r' (a + 1) v (by omega)
      (fun i hi => by
        obtain ⟨e', he'⟩ := hfail (i + 1) (by omega)
        exact ⟨e', by rw [← he']; congr 1; omega⟩)
      (by rw [← hok]; congr 1; omega)
    rw [hstep, range_map_delay]

theorem retryAttempts_all_fail (op : ℕ → Except E A) (b : ℕ) (f : ℕ → E) :
    ∀ (r a : ℕ), (∀ i, i ≤ r → op (a + i) = Except.error (f (a + i))) →
      retryAttempts op b a r =
        (Except.error (f (a + r)), r + 1, (List.range r).map fun i => b * 2 ^ (a + i)) := by
  intro r
  induction r with
  | zero =>
    intro a h
    have he := h 0 (Nat.le_refl 0)
    rw [Nat.add_zero] at he
    rw [retryAttempts_err_zero op b a _ he]
    simp
  | succ r ih =>
    intro a h
    have he := h 0 (by omega)
    rw [Nat.add_zero] at he
    rw [retryAttempts_err_succ op b a r _ he]
    have hstep := ih (a + 1) (fun i hi => by
      have hidx : a + 1 + i = a + (i + 1) := by omega
      rw [hidx]
      exact h (i + 1) (by omega))
    rw [hstep, range_map_delay]
    have hidx : a + 1 + r = a + (r + 1) := by omega
    rw [hidx]

/-- C8: with the source defaults (maxRetries = 3, baseDelay = 1000) the
retry helper invokes the operation at most 4 times; if the first success is
attempt k (0-based, after k failures) the result is returned with k + 1
invocations and backoff delays 1000 * 2 ^ n for the failed attempts n < k;
if all 4 attempts fail, the last error is rethrown after delays
1000, 2000, 4000. -/
theorem retry_default_spec (op : ℕ → Except E A) :
    ((retry op 3 1000).2.1 ≤ 4) ∧
    (∀ (k : ℕ) (v : A), k ≤ 3 → (∀ i, i < k → ∃ e, op i = Except.error e) →
      op k = Except.ok v →
      retry op 3 1000 = (Except.ok v, k + 1, (List.range k).map fun n => 1000 * 2 ^ n)) ∧
    (∀ f : ℕ → E, (∀ i, i ≤ 3 → op i = Except.error (f i)) →
      retry op 3 1000 = (Except.error (f 3), 4, [1000, 2000, 4000])) := by
  refine ⟨retryAttempts_count_le op 1000 3 0, ?_, ?_⟩
  · intro k v hk hfail hok
    have hstep := retryAttempts_first_ok op 1000 k 3 0 v hk
      (fun i hi => by simpa using hfail i hi) (by simpa using hok)
    rw [retry, hstep]
    simp
  · intro f h
    have hstep := retryAttempts_all_fail op 1000 f 3 0 (fun i hi => by simpa using h i hi)
    rw [retry, hstep]
    simp only [Nat.zero_add]
    refine congrArg₂ _ rfl (congrArg₂ _ rfl ?_)
    decide

/-- Operation that fails on its first attempt and succeeds on every later
one. -/
def opDemo : ℕ → Except String ℕ :=
  fun i => if i = 0 then Except.error "boom" else Except.ok 7

/-- C8 witness: the retry policy on a concrete operation that fails once —
two invocations, one 1000 ms delay, first success returned. -/
theorem retry_default_spec_witness :
    retry opDemo 3 1000 = (Except.ok 7, 2, [1000]) := by
  have h := (retry_default_spec opDemo).2.1 1 7 (by omega)
    (fun i hi => ⟨"boom", by
      have hz : i = 0 := by omega
      rw [hz]
      rfl⟩)
    rfl
  simpa using h

/-! Lemmas about the partitioner. -/

theorem lookupGroup_groupInsert (m : List (String × List ProcessedOptionContract))
    (c : ProcessedOptionContract) (k : String) :
    lookupGroup (groupInsert m c) k =
      lookupGroup m k ++ (if c.symbol = k then [c] else []) := by
  induction m with
  | nil =>
    unfold groupInsert lookupGroup
    rcases eq_or_ne c.symbol k with hk | hk
    · rw [if_pos hk, if_pos hk]
      rfl
    · rw [if_neg hk, if_neg hk]
      rfl
  | cons e rest ih =>
    obtain ⟨k', g⟩ := e
    unfold groupInsert
    rcases eq_or_ne k' c.symbol with hk' | hk'
    · rw [if_pos hk']
      unfold lookupGroup
      rcases eq_or_ne k' k with hkk | hkk
      · rw [if_pos hkk, if_pos hkk, if_pos (hk' ▸ hkk)]
      · rw [if_neg hkk, if_neg hkk, if_neg (fun hc => hkk (hk' ▸ hc)), List.append_nil]
    · rw [if_neg hk']
      unfold lookupGroup
      rcases eq_or_ne k' k with hkk | hkk
      · rw [if_pos hkk, if_pos hkk,
          if_neg (fun hc : c.symbol = k => hk' (hkk.trans hc.symm)), List.append_nil]
      · rw [if_neg hkk, if_neg hkk]
        exact ih

theorem lookupGroup_foldl (l : List ProcessedOptionContract) :
    ∀ (m : List (String × List ProcessedOptionContract)) (k : String),
      lookupGroup (l.foldl groupInsert m) k =
        lookupGroup m k ++ l.filter fun c => decide (c.symbol = k) := by
  induction l with
  | nil =>
    intro m k
    simp [List.foldl]
  | cons c l ih =>
    intro m k
    rw [List.foldl_cons, ih (groupInsert m c) k, lookupGroup_groupInsert,
      List.append_assoc, List.filter_cons]
    rcases eq_or_ne c.symbol k with hk | hk
    · rw [if_pos hk, if_pos (by simpa using hk)]
      rfl
    · rw [if_neg hk, if_neg (by simpa using hk)]
      rfl

/-- The conditional sort applied by groupBySymbol agrees with the
unconditional stable sort: groups of size at most one are already
sorted. -/
theorem sortIfLong_eq_mergeSort (g : List ProcessedOptionContract) :
    (if g.length > 1 then g.mergeSort contractLE else g) = g.mergeSort contractLE := by
  match g with
  | [] => simp
  | [a] => simp
  | a :: b :: t => rw [if_pos (by simp)]

theorem lookupGroup_map_sort (m : List (String × List ProcessedOptionContract)) (k : String) :
    lookupGroup (m.map fun e => (e.1, e.2.mergeSort contractLE)) k =
      (lookupGroup m k).mergeSort contractLE := by
  induction m with
  | nil => simp [lookupGroup]
  | cons e rest ih =>
    obtain ⟨k', g⟩ := e
    rw [List.map_cons]
    unfold lookupGroup
    rcases eq_or_ne k' k with hkk | hkk
    · rw [if_pos hkk, if_pos hkk]
    · rw [if_neg hkk, if_neg hkk]
      exact ih

/-- Central characterization of the partitioner: the group stored for key k
is the stable sort of the input subsequence of records carrying symbol k, in
input order. -/
theorem groupBySymbol_lookup (l : List ProcessedOptionContract) (k : String) :
    lookupGroup (groupBySymbol l) k =
      (l.filter fun c => decide (c.symbol = k)).mergeSort contractLE := by
  unfold groupBySymbol
  rw [List.map_congr_left fun e _ => by rw [sortIfLong_eq_mergeSort e.2],
    lookupGroup_map_sort, lookupGroup_foldl]
  rfl

theorem mem_keysOf_groupInsert (m : List (String × List ProcessedOptionContract))
    (c : ProcessedOptionContract) (k : String) :
    k ∈ keysOf (groupInsert m c) ↔ k ∈ keysOf m ∨ k = c.symbol := by
  induction m with
  | nil => simp [groupInsert, keysOf]
  | cons e rest ih =>
    obtain ⟨k', g⟩ := e
    unfold groupInsert
    rcases eq_or_ne k' c.symbol with hk' | hk'
    · rw [if_pos hk']
      simp only [keysOf, List.map_cons, List.mem_cons]
      constructor
      · rintro (h | h)
        · exact Or.inl (Or.inl h)
        · exact Or.inl (Or.inr h)
      · rintro ((h | h) | h)
        · exact Or.inl h
        · exact Or.inr h
        · exact Or.inl (h.trans hk'.symm)
    · rw [if_neg hk']
      simp only [keysOf, List.map_cons, List.mem_cons] at ih ⊢
      rw [ih]
      tauto

theorem mem_keysOf_foldl (l : List ProcessedOptionContract) :
    ∀ (m : List (String × List ProcessedOptionContract)) (k : String),
      k ∈ keysOf (l.foldl groupInsert m) ↔ k ∈ keysOf m ∨ ∃ c ∈ l, c.symbol = k := by
  induction l with
  | nil =>
    intro m k
    simp
  | cons c l ih =>
    intro m k
    rw [List.foldl_cons, ih (groupInsert m c) k, mem_keysOf_groupInsert]
    simp only [List.mem_cons]
    constructor
    · rintro ((h | h) | h)
      · exact Or.inl h
      · exact Or.inr ⟨c, Or.inl rfl, h.symm⟩
      · obtain ⟨d, hd, hds⟩ := h
        exact Or.inr ⟨d, Or.inr hd, hds⟩
    · rintro (h | ⟨d, (rfl | hd), hds⟩)
      · exact Or.inl (Or.inl h)
      · exact Or.inl (Or.inr hds.symm)
      · exact Or.inr ⟨d, hd, hds⟩

theorem keysOf_map_sort (m : List (String × List ProcessedOptionContract)) :
    keysOf (m.map fun e => (e.1, if e.2.length > 1 then e.2.mergeSort contractLE else e.2))
      = keysOf m := by
  unfold keysOf
  rw [List.map_map]
  rfl

/-- Key membership in the produced partition map: exactly the symbols
occurring in the input. -/
theorem mem_keysOf_groupBySymbol (l : List ProcessedOptionContract) (k : String) :
    k ∈ keysOf (groupBySymbol l) ↔ ∃ c ∈ l, c.symbol = k := by
  unfold groupBySymbol
  rw [keysOf_map_sort, mem_keysOf_foldl]
  simp [keysOf]

theorem entries_foldl_invariant (l : List ProcessedOptionContract) :
    ∀ (m : List (String × List ProcessedOptionContract)),
      (∀ e ∈ m, e.2 ≠ [] ∧ ∀ c ∈ e.2, c.symbol = e.1) →
      ∀ e ∈ l.foldl groupInsert m, e.2 ≠ [] ∧ ∀ c ∈ e.2, c.symbol = e.1 := by
  induction l with
  | nil =>
    intro m hm
    simpa using hm
  | cons c l ih =>
    intro m hm
    rw [List.foldl_cons]
    refine ih (groupInsert m c) ?_
    clear ih
    induction m with
    | nil =>
      intro e he
      simp only [groupInsert, List.mem_singleton] at he
      subst he
      exact ⟨by simp, by simp⟩
    | cons e' rest ih' =>
      obtain ⟨k', g⟩ := e'
      intro e he
      unfold groupInsert at he
      rcases eq_or_ne k' c.symbol with hk' | hk'
      · rw [if_pos hk'] at he
        rcases List.mem_cons.mp he with rfl | hmem
        · obtain ⟨h1, h2⟩ := hm (k', g) (List.mem_cons_self _ _)
          refine ⟨by simp, ?_⟩
          intro d hd
          rcases List.mem_append.mp hd with hd | hd
          · exact h2 d hd
          · rw [List.mem_singleton.mp hd, hk'.symm]
        · exact hm e (List.mem_cons_of_mem _ hmem)
      · rw [if_neg hk'] at he
        rcases List.mem_cons.mp he with rfl | hmem
        · exact hm _ (List.mem_cons_self _ _)
        · exact ih' (fun d hd => hm d (List.mem_cons_of_mem _ hd)) e hmem

/-- Every entry of the partition map is non-empty and contains only records
of its own key. -/
theorem entries_groupBySymbol (l : List ProcessedOptionContract) :
    ∀ e ∈ groupBySymbol l, e.2 ≠ [] ∧ ∀ c ∈ e.2, c.symbol = e.1 := by
  intro e he
  unfold groupBySymbol at he
  obtain ⟨e0, he0, rfl⟩ := List.mem_map.mp he
  obtain ⟨h1, h2⟩ := entries_foldl_invariant l [] (by simp) e0 he0
  rw [sortIfLong_eq_mergeSort]
  constructor
  · intro hx
    exact h1 (List.eq_nil_of_length_eq_zero (by
      have := congrArg List.length hx
      simpa using this))
  · intro c hc
    exact h2 c (List.mem_mergeSort.mp hc)

theorem join_groupInsert (m : List (String × List ProcessedOptionContract))
    (c : ProcessedOptionContract) :
    (((groupInsert m c).map fun e => e.2).flatten).Perm
      (c :: (m.map fun e => e.2).flatten) := by
  induction m with
  | nil => simp [groupInsert]
  | cons e rest ih =>
    obtain ⟨k', g⟩ := e
    unfold groupInsert
    rcases eq_or_ne k' c.symbol with hk' | hk'
    · rw [if_pos hk']
      simp only [List.map_cons, List.flatten_cons, List.append_assoc, List.singleton_append]
      exact List.perm_middle
    · rw [if_neg hk']
      simp only [List.map_cons, List.flatten_cons]
      exact (List.Perm.append_left g ih).trans List.perm_middle

theorem join_foldl (l : List ProcessedOptionContract) :
    ∀ (m : List (String × List ProcessedOptionContract)),
      (((l.foldl groupInsert m).map fun e => e.2).flatten).Perm
        ((m.map fun e => e.2).flatten ++ l) := by
  induction l with
  | nil =>
    intro m
    simp
  | cons c l ih =>
    intro m
    rw [List.foldl_cons]
    refine ((ih (groupInsert m c)).trans ?_)
    refine (List.Perm.append_right l (join_groupInsert m c)).trans ?_
    exact List.perm_middle.symm

theorem join_pointwise_perm (m : List (String × List ProcessedOptionContract)) :
    (((m.map fun e => (e.1, if e.2.length > 1 then e.2.mergeSort contractLE else e.2)).map
        fun e => e.2).flatten).Perm
      ((m.map fun e => e.2).flatten) := by
  induction m with
  | nil => simp
  | cons e rest ih =>
    obtain ⟨k', g⟩ := e
    simp only [List.map_cons, List.flatten_cons]
    refine List.Perm.append ?_ ih
    rw [sortIfLong_eq_mergeSort]
    exact List.mergeSort_perm g contractLE

/-- The multiset of records across all groups of the partition map equals
the input multiset. -/
theorem join_groupBySymbol (l : List ProcessedOptionContract) :
    (((groupBySymbol l).map fun e => e.2).flatten).Perm l := by
  unfold groupBySymbol
  refine (join_pointwise_perm (l.foldl groupInsert [])).trans ?_
  refine (join_foldl l []).trans ?_
  simp

/-! Order properties of the comparator. -/

/-- Unfolding of the sorting relation: expiration ascending, then call
before put, then strike ascending. -/
theorem contractLE_iff (a b : ProcessedOptionContract) :
    contractLE a b = true ↔
      (a.expiration < b.expiration ∨ (a.expiration = b.expiration ∧
        ((a.type = CPType.call ∧ b.type = CPType.put) ∨
         (a.type = b.type ∧ a.strike ≤ b.strike)))) := by
  unfold contractLE compareContracts
  rcases eq_or_ne a.expiration b.expiration with he | he
  · rw [if_neg (by simp [he])]
    rcases ha : a.type with _ | _ <;> rcases hb : b.type with _ | _
    · rw [if_neg (by simp)]
      simp [he, sub_nonpos]
    · rw [if_pos (by simp), if_pos rfl]
      simp [he]
    · rw [if_pos (by simp), if_neg (by simp)]
      simp [he]
    · rw [if_neg (by simp)]
      simp [he, sub_nonpos]
  · rw [if_pos he]
    by_cases hlt : a.expiration < b.expiration
    · rw [if_pos hlt]
      simp [he, hlt]
    · rw [if_neg hlt]
      simp [he, hlt]

theorem contractLE_total (a b : ProcessedOptionContract) :
    contractLE a b = true ∨ contractLE b a = true := by
  rw [contractLE_iff, contractLE_iff]
  rcases lt_trichotomy a.expiration b.expiration with h | h | h
  · exact Or.inl (Or.inl h)
  · rcases ha : a.type with _ | _ <;> rcases hb : b.type with _ | _
    · rcases le_total a.strike b.strike with hs | hs
      · exact Or.inl (Or.inr ⟨h, Or.inr ⟨rfl, hs⟩⟩)
      · exact Or.inr (Or.inr ⟨h.symm, Or.inr ⟨rfl, hs⟩⟩)
    · exact Or.inl (Or.inr ⟨h, Or.inl ⟨rfl, rfl⟩⟩)
    · exact Or.inr (Or.inr ⟨h.symm, Or.inl ⟨rfl, rfl⟩⟩)
    · rcases le_total a.strike b.strike with hs | hs
      · exact Or.inl (Or.inr ⟨h, Or.inr ⟨rfl, hs⟩⟩)
      · exact Or.inr (Or.inr ⟨h.symm, Or.inr ⟨rfl, hs⟩⟩)
  · exact Or.inr (Or.inl h)

theorem contractLE_trans (a b c : ProcessedOptionContract)
    (hab : contractLE a b = true) (hbc : contractLE b c = true) :
    contractLE a c = true := by
  rw [contractLE_iff] at hab hbc ⊢
  rcases hab with h1 | ⟨he1, h1⟩
  · rcases hbc with h2 | ⟨he2, h2⟩
    · exact Or.inl (h1.trans h2)
    · exact Or.inl (he2 ▸ h1)
  · rcases hbc with h2 | ⟨he2, h2⟩
    · exact Or.inl (he1 ▸ h2)
    · refine Or.inr ⟨he1.trans he2, ?_⟩
      rcases h1 with ⟨ha1, hb1⟩ | ⟨ht1, hs1⟩
      · rcases h2 with ⟨hb2, hc2⟩ | ⟨ht2, hs2⟩
        · rw [hb1] at hb2
          exact absurd hb2 (by simp)
        · exact Or.inl ⟨ha1, ht2 ▸ hb1⟩
      · rcases h2 with ⟨hb2, hc2⟩ | ⟨ht2, hs2⟩
        · exact Or.inl ⟨ht1.trans hb2, hc2⟩
        · exact Or.inr ⟨ht1.trans ht2, hs1.trans hs2⟩

theorem contractLE_total_bool (a b : ProcessedOptionContract) :
    contractLE a b || contractLE b a := by
  rcases contractLE_total a b with h | h <;> simp [h]

/-! Claim theorems about the partitioner. -/

/-- Stable sort of a two-element list. -/
theorem mergeSort_pair {α : Type} (le : α → α → Bool) (a b : α) :
    [a, b].mergeSort le = if le a b then [a, b] else [b, a] := by
  rw [List.mergeSort]
  norm_num [List.splitInTwo_fst, List.splitInTwo_snd, List.cons_merge_cons]

theorem pA1_ne_pA2 : pA1 ≠ pA2 := by
  intro h
  have hb := congrArg ProcessedOptionContract.bid h
  simp only [pA1, pA2, mkP] at hb
  norm_num at hb

theorem contractLE_pA12 : contractLE pA1 pA2 = true := by
  rw [contractLE_iff]
  exact Or.inr ⟨rfl, Or.inr ⟨rfl, le_refl _⟩⟩

theorem contractLE_pA21 : contractLE pA2 pA1 = true := by
  rw [contractLE_iff]
  exact Or.inr ⟨rfl, Or.inr ⟨rfl, le_refl _⟩⟩

theorem groupBySymbol_pA12 :
    lookupGroup (groupBySymbol [pA1, pA2]) "A" = [pA1, pA2] := by
  rw [groupBySymbol_lookup]
  have hf : ([pA1, pA2].filter fun c => decide (c.symbol = "A")) = [pA1, pA2] := rfl
  rw [hf, mergeSort_pair, if_pos contractLE_pA12]

theorem groupBySymbol_pA21 :
    lookupGroup (groupBySymbol [pA2, pA1]) "A" = [pA2, pA1] := by
  rw [groupBySymbol_lookup]
  have hf : ([pA2, pA1].filter fun c => decide (c.symbol = "A")) = [pA2, pA1] := rfl
  rw [hf, mergeSort_pair, if_pos contractLE_pA21]

/-- C4 counterexample: two distinct records that the comparator cannot
distinguish (same symbol, expiration, kind and strike, different bid) keep
their insertion order through the stable sort, so two permutations of the
same record set produce different per-key sequences. -/
theorem partition_not_permutation_invariant :
    ([pA1, pA2] : List ProcessedOptionContract).Perm [pA2, pA1] ∧
    lookupGroup (groupBySymbol [pA1, pA2]) "A" ≠
      lookupGroup (groupBySymbol [pA2, pA1]) "A" := by
  refine ⟨List.Perm.swap pA2 pA1 [], ?_⟩
  rw [groupBySymbol_pA12, groupBySymbol_pA21]
  intro h
  exact pA1_ne_pA2 (by injection h)

/-- C4 (amended): for permutations of the same record set the partitioner
produces the same key set and identical per-key ordered sequences, provided
the comparator distinguishes any two distinct records that share a symbol
(no two distinct same-symbol records are comparator-tied); insertion-order
tie-breaking makes the unrestricted statement false. -/
theorem partition_permutation_invariant (l1 l2 : List ProcessedOptionContract)
    (hperm : l1.Perm l2)
    (hinj : ∀ a ∈ l1, ∀ b ∈ l1, a.symbol = b.symbol →
      contractLE a b = true → contractLE b a = true → a = b) :
    (∀ k, lookupGroup (groupBySymbol l1) k = lookupGroup (groupBySymbol l2) k) ∧
    (∀ k, k ∈ keysOf (groupBySymbol l1) ↔ k ∈ keysOf (groupBySymbol l2)) := by
  constructor
  · intro k
    rw [groupBySymbol_lookup, groupBySymbol_lookup]
    have hpf := hperm.filter (fun c => decide (c.symbol = k))
    have hps : ((l1.filter fun c => decide (c.symbol = k)).mergeSort contractLE).Perm
        ((l2.filter fun c => decide (c.symbol = k)).mergeSort contractLE) :=
      (List.mergeSort_perm _ _).trans (hpf.trans (List.mergeSort_perm _ _).symm)
    have hanti : ∀ (a b : ProcessedOptionContract),
        a ∈ (l1.filter fun c => decide (c.symbol = k)).mergeSort contractLE →
        b ∈ (l2.filter fun c => decide (c.symbol = k)).mergeSort contractLE →
        contractLE a b = true → contractLE b a = true → a = b := by
      intro a b ha hb hab hba
      rw [List.mem_mergeSort] at ha hb
      have ha' := List.mem_filter.mp ha
      have hb' := List.mem_filter.mp hb
      have hbl1 : b ∈ l1 := hperm.mem_iff.mpr hb'.1
      refine hinj a ha'.1 b hbl1 ?_ hab hba
      have h1 : a.symbol = k := by simpa using ha'.2
      have h2 : b.symbol = k := by simpa using hb'.2
      rw [h1, h2]
    exact List.Perm.eq_of_sorted hanti
      (List.sorted_mergeSort contractLE_trans contractLE_total_bool _)
      (List.sorted_mergeSort contractLE_trans contractLE_total_bool _) hps
  · intro k
    rw [mem_keysOf_groupBySymbol, mem_keysOf_groupBySymbol]
    constructor
    · rintro ⟨c, hc, hcs⟩
      exact ⟨c, hperm.mem_iff.mp hc, hcs⟩
    · rintro ⟨c, hc, hcs⟩
      exact ⟨c, hperm.mem_iff.mpr hc, hcs⟩

/-- C4 witness: the amended statement on a concrete two-symbol set whose
records are pairwise comparator-distinguishable. -/
theorem partition_permutation_invariant_witness :
    (([pA1, pB1] : List ProcessedOptionContract).Perm [pB1, pA1]) ∧
    (∀ k, lookupGroup (groupBySymbol [pA1, pB1]) k =
      lookupGroup (groupBySymbol [pB1, pA1]) k) := by
  have hperm : ([pA1, pB1] : List ProcessedOptionContract).Perm [pB1, pA1] :=
    List.Perm.swap pB1 pA1 []
  refine ⟨hperm, (partition_permutation_invariant [pA1, pB1] [pB1, pA1] hperm ?_).1⟩
  intro a ha b hb hsym h1 h2
  rcases List.mem_cons.mp ha with rfl | ha' <;>
    rcases List.mem_cons.mp hb with rfl | hb'
  · rfl
  · rw [List.mem_singleton.mp hb'] at hsym ⊢
    exact absurd hsym (by decide)
  · rw [List.mem_singleton.mp ha'] at hsym ⊢
    exact absurd hsym (by decide)
  · rw [List.mem_singleton.mp ha', List.mem_singleton.mp hb']

/-- C10: the grouping phase conserves records: the multiset union of all
groups is the input multiset, every input record lands in the group of its
own symbol, every group is non-empty and homogeneous in its key, and the
key set is exactly the set of symbols occurring in the input. -/
theorem grouping_conserves_records (l : List ProcessedOptionContract) :
    ((((groupBySymbol l).map fun e => e.2).flatten).Perm l) ∧
    (∀ c ∈ l, c ∈ lookupGroup (groupBySymbol l) c.symbol) ∧
    (∀ e ∈ groupBySymbol l, e.2 ≠ [] ∧ ∀ c ∈ e.2, c.symbol = e.1) ∧
    (∀ k, k ∈ keysOf (groupBySymbol l) ↔ ∃ c ∈ l, c.symbol = k) := by
  refine ⟨join_groupBySymbol l, ?_, entries_groupBySymbol l,
    fun k => mem_keysOf_groupBySymbol l k⟩
  intro c hc
  rw [groupBySymbol_lookup, List.mem_mergeSort]
  exact List.mem_filter.mpr ⟨hc, by simp⟩

/-- C10 witness: record conservation on a concrete input. -/
theorem grouping_conserves_records_witness :
    ((((groupBySymbol [pA1]).map fun e => e.2).flatten).Perm [pA1]) ∧
    (∀ c ∈ [pA1], c ∈ lookupGroup (groupBySymbol [pA1]) c.symbol) ∧
    (∀ e ∈ groupBySymbol [pA1], e.2 ≠ [] ∧ ∀ c ∈ e.2, c.symbol = e.1) ∧
    (∀ k, k ∈ keysOf (groupBySymbol [pA1]) ↔ ∃ c ∈ [pA1], c.symbol = k) :=
  grouping_conserves_records [pA1]

/-- C5: within each partition the records are pairwise ordered by
expiration ascending, then call before put, then strike ascending; the
group equals the sort of the insertion-ordered same-symbol subsequence with
ties broken by original position (full stability), and any comparator-tied
pair keeps its relative insertion order. -/
theorem partition_group_sorted_stable (l : List ProcessedOptionContract) (k : String) :
    ((lookupGroup (groupBySymbol l) k).Pairwise fun a b =>
      a.expiration < b.expiration ∨ (a.expiration = b.expiration ∧
        ((a.type = CPType.call ∧ b.type = CPType.put) ∨
         (a.type = b.type ∧ a.strike ≤ b.strike)))) ∧
    (lookupGroup (groupBySymbol l) k =
      (((l.filter fun c => decide (c.symbol = k)).enum.mergeSort
          (List.enumLE contractLE)).map fun x => x.2)) ∧
    (∀ a b : ProcessedOptionContract, contractLE a b = true → contractLE b a = true →
      ([a, b] : List ProcessedOptionContract).Sublist
        (l.filter fun c => decide (c.symbol = k)) →
      ([a, b] : List ProcessedOptionContract).Sublist
        (lookupGroup (groupBySymbol l) k)) := by
  refine ⟨?_, ?_, ?_⟩
  · rw [groupBySymbol_lookup]
    exact (List.sorted_mergeSort contractLE_trans contractLE_total_bool _).imp
      fun h => (contractLE_iff _ _).mp h
  · rw [groupBySymbol_lookup, List.mergeSort_enum]
  · intro a b hab hba hsub
    rw [groupBySymbol_lookup]
    exact List.pair_sublist_mergeSort contractLE_trans contractLE_total_bool hab hsub

/-- C5 witness: sortedness and stability on a concrete tied pair. -/
theorem partition_group_sorted_stable_witness :
    ((lookupGroup (groupBySymbol [pA1, pA2]) "A").Pairwise fun a b =>
      a.expiration < b.expiration ∨ (a.expiration = b.expiration ∧
        ((a.type = CPType.call ∧ b.type = CPType.put) ∨
         (a.type = b.type ∧ a.strike ≤ b.strike)))) ∧
    (lookupGroup (groupBySymbol [pA1, pA2]) "A" =
      ((([pA1, pA2].filter fun c => decide (c.symbol = "A")).enum.mergeSort
          (List.enumLE contractLE)).map fun x => x.2)) :=
  ⟨(partition_group_sorted_stable [pA1, pA2] "A").1,
   (partition_group_sorted_stable [pA1, pA2] "A").2.1⟩

/-! Lemmas about the persistence runner. -/

theorem writeJsonFile_tooLarge (sinkOk : Bool) (len : ℕ) (h : len > MAX_FILE_SIZE) :
    writeJsonFile sinkOk len = Except.error (WriteFailure.tooLarge len) := by
  unfold writeJsonFile
  rw [if_pos h]

theorem writeJsonFile_ok (len : ℕ) (h : len ≤ MAX_FILE_SIZE) :
    writeJsonFile true len = Except.ok len := by
  unfold writeJsonFile
  rw [if_neg (by omega), if_pos rfl]

theorem writeJsonFile_sinkFail (len : ℕ) (h : len ≤ MAX_FILE_SIZE) :
    writeJsonFile false len = Except.error WriteFailure.writeFailed := by
  unfold writeJsonFile
  rw [if_neg (by omega)]
  rfl

theorem retry_first_ok (op : ℕ → Except E A) (v : A) (hop : op 0 = Except.ok v) :
    retry op 3 1000 = (Except.ok v, 1, []) := by
  rw [retry, retryAttempts_ok op 1000 0 v 3 hop]

theorem retry_const_error (op : ℕ → Except E A) (e : E)
    (hop : ∀ n, op n = Except.error e) :
    retry op 3 1000 = (Except.error e, 4, [1000, 2000, 4000]) := by
  have h := retryAttempts_all_fail op 1000 (fun _ => e) 3 0 (fun i _ => hop (0 + i))
  rw [retry, h]
  refine congrArg₂ _ rfl (congrArg₂ _ rfl ?_)
  decide

theorem keyResult_symbol (sinkOk : String → Bool) (bufLen : String → ℕ)
    (e : String × List ProcessedOptionContract) :
    (keyResult sinkOk bufLen e).symbol = e.1 := by
  unfold keyResult processSymbol
  cases (retry (fun _ => writeJsonFile (sinkOk e.1) (bufLen e.1)) 3 1000).1 <;> rfl

theorem keyResult_ok (sinkOk : String → Bool) (bufLen : String → ℕ)
    (e : String × List ProcessedOptionContract)
    (hs : sinkOk e.1 = true) (hl : bufLen e.1 ≤ MAX_FILE_SIZE) :
    keyResult sinkOk bufLen e = ⟨e.1, true, e.2.length, bufLen e.1, none⟩ := by
  unfold keyResult processSymbol
  rw [retry_first_ok _ _ (by simp only [hs]; exact writeJsonFile_ok _ hl)]

theorem keyResult_sinkFail (sinkOk : String → Bool) (bufLen : String → ℕ)
    (e : String × List ProcessedOptionContract)
    (hs : sinkOk e.1 = false) (hl : bufLen e.1 ≤ MAX_FILE_SIZE) :
    keyResult sinkOk bufLen e = ⟨e.1, false, 0, 0, some WriteFailure.writeFailed⟩ := by
  unfold keyResult processSymbol
  rw [retry_const_error _ _ (fun n => by simp only [hs]; exact writeJsonFile_sinkFail _ hl)]

theorem keyResult_tooLarge (sinkOk : String → Bool) (bufLen : String → ℕ)
    (e : String × List ProcessedOptionContract) (hl : bufLen e.1 > MAX_FILE_SIZE) :
    keyResult sinkOk bufLen e =
      ⟨e.1, false, 0, 0, some (WriteFailure.tooLarge (bufLen e.1))⟩ := by
  unfold keyResult processSymbol
  rw [retry_const_error _ _ (fun n => writeJsonFile_tooLarge (sinkOk e.1) _ hl)]

/-! Claim theorems about the persistence runner. -/

/-- C1 counterexample: an oversized payload IS retried.  With the source
defaults, the size-rejected write operation is invoked 4 times and backoff
delays of 1000, 2000 and 4000 ms are slept, refuting the claim that no
retry or backoff attempt is ever made for a size failure. -/
theorem oversize_payload_retried :
    (retry (fun _ => writeJsonFile true (MAX_FILE_SIZE + 1)) 3 1000).2.1 = 4 ∧
    (retry (fun _ => writeJsonFile true (MAX_FILE_SIZE + 1)) 3 1000).2.2 =
      [1000, 2000, 4000] := by
  have h := retry_const_error (fun _ => writeJsonFile true (MAX_FILE_SIZE + 1))
    (WriteFailure.tooLarge (MAX_FILE_SIZE + 1))
    (fun n => writeJsonFile_tooLarge true _ (by omega))
  rw [h]
  exact ⟨rfl, rfl⟩

/-- C1 (amended): an oversized payload is rejected by the size ceiling
before the sink write is attempted — on every one of the 4 attempts — the
key's result is a failure carrying the tooLarge error, and a file_write
ProcessingError is recorded for the key; however the retry wrapper still
re-invokes the deterministically failing operation 3 more times with
backoff delays 1000, 2000, 4000 ms before giving up, so the failure is
permanent but not retry-free. -/
theorem oversize_payload_hard_failure (sinkOk : String → Bool) (bufLen : String → ℕ)
    (m : List (String × List ProcessedOptionContract))
    (e : String × List ProcessedOptionContract) (hm : e ∈ m)
    (hl : bufLen e.1 > MAX_FILE_SIZE) :
    writeAttempted (bufLen e.1) = false ∧
    (∀ s : Bool, writeJsonFile s (bufLen e.1) =
      Except.error (WriteFailure.tooLarge (bufLen e.1))) ∧
    retry (fun _ => writeJsonFile (sinkOk e.1) (bufLen e.1)) 3 1000 =
      (Except.error (WriteFailure.tooLarge (bufLen e.1)), 4, [1000, 2000, 4000]) ∧
    keyResult sinkOk bufLen e =
      ⟨e.1, false, 0, 0, some (WriteFailure.tooLarge (bufLen e.1))⟩ ∧
    (⟨ProcErrorType.file_write, some e.1⟩ : ProcessingError) ∈
      processErrors sinkOk bufLen m := by
  refine ⟨?_, fun s => writeJsonFile_tooLarge s _ hl, ?_, keyResult_tooLarge sinkOk bufLen e hl, ?_⟩
  · unfold writeAttempted
    simp
    omega
  · exact retry_const_error _ _ (fun n => writeJsonFile_tooLarge (sinkOk e.1) _ hl)
  · unfold processErrors
    refine List.mem_map.mpr ⟨e, ?_, rfl⟩
    refine List.mem_filter.mpr ⟨hm, ?_⟩
    rw [keyResult_tooLarge sinkOk bufLen e hl]
    rfl

/-- C1 witness: the amended statement on a single-key map whose payload is
one byte over the ceiling. -/
theorem oversize_payload_hard_failure_witness :
    (("AAPL", [pA1]) ∈ [(("AAPL" : String), [pA1])]) ∧
    ((fun _ : String => MAX_FILE_SIZE + 1) "AAPL" > MAX_FILE_SIZE) ∧
    (writeAttempted ((fun _ : String => MAX_FILE_SIZE + 1) "AAPL") = false ∧
     keyResult (fun _ => true) (fun _ => MAX_FILE_SIZE + 1) ("AAPL", [pA1]) =
       ⟨"AAPL", false, 0, 0, some (WriteFailure.tooLarge (MAX_FILE_SIZE + 1))⟩) :=
  ⟨List.mem_singleton.mpr rfl, Nat.lt_succ_self MAX_FILE_SIZE,
   (oversize_payload_hard_failure (fun _ => true) (fun _ => MAX_FILE_SIZE + 1)
      [("AAPL", [pA1])] ("AAPL", [pA1]) (List.mem_singleton.mpr rfl)
      (Nat.lt_succ_self MAX_FILE_SIZE)).1,
   (oversize_payload_hard_failure (fun _ => true) (fun _ => MAX_FILE_SIZE + 1)
      [("AAPL", [pA1])] ("AAPL", [pA1]) (List.mem_singleton.mpr rfl)
      (Nat.lt_succ_self MAX_FILE_SIZE)).2.2.2.1⟩

theorem countP_success_all (sinkOk : String → Bool) (bufLen : String → ℕ) (kbad : String)
    (hok : ∀ k, k ≠ kbad → sinkOk k = true) (hlen : ∀ k, bufLen k ≤ MAX_FILE_SIZE) :
    ∀ m : List (String × List ProcessedOptionContract), kbad ∉ keysOf m →
      (m.countP fun e => (keyResult sinkOk bufLen e).success) = m.length := by
  intro m
  induction m with
  | nil =>
    intro _
    rfl
  | cons e rest ih =>
    intro hnot
    simp only [keysOf, List.map_cons, List.mem_cons] at hnot
    push_neg at hnot
    rw [List.countP_cons, ih (by simpa [keysOf] using hnot.2),
      keyResult_ok sinkOk bufLen e (hok e.1 (fun hc => hnot.1 hc.symm)) (hlen e.1)]
    simp

theorem countP_success_one_fail (sinkOk : String → Bool) (bufLen : String → ℕ)
    (kbad : String) (hbad : sinkOk kbad = false)
    (hok : ∀ k, k ≠ kbad → sinkOk k = true) (hlen : ∀ k, bufLen k ≤ MAX_FILE_SIZE) :
    ∀ m : List (String × List ProcessedOptionContract),
      (keysOf m).Nodup → kbad ∈ keysOf m →
      (m.countP fun e => (keyResult sinkOk bufLen e).success) = m.length - 1 := by
  intro m
  induction m with
  | nil =>
    intro _ h
    simp [keysOf] at h
  | cons e rest ih =>
    intro hnd hmem
    simp only [keysOf, List.map_cons] at hnd
    have hnd' := List.nodup_cons.mp hnd
    rw [List.countP_cons]
    rcases eq_or_ne e.1 kbad with heq | hne
    · have hnotrest : kbad ∉ keysOf rest := by
        rw [← heq]
        simpa [keysOf] using hnd'.1
      rw [keyResult_sinkFail sinkOk bufLen e (by rw [heq]; exact hbad) (hlen e.1),
        countP_success_all sinkOk bufLen kbad hok hlen rest hnotrest]
      simp
    · have hmem' : kbad ∈ keysOf rest := by
        simp only [keysOf, List.map_cons, List.mem_cons] at hmem
        rcases hmem with h | h
        · exact absurd h.symm hne
        · simpa [keysOf] using h
      have hlen1 : 1 ≤ rest.length := by
        rcases rest with _ | ⟨x, xs⟩
        · simp [keysOf] at hmem'
        · simp
      rw [ih (by simpa [keysOf] using hnd'.2) hmem',
        keyResult_ok sinkOk bufLen e (hok e.1 hne) (hlen e.1)]
      simp
      omega

/-- C2: a single permanently failing key is isolated: the run yields one
PersistenceResult per key in key order, the failed key's result has
success = false and carries an error, every other key's result has
success = true, both aggregate artifacts are still produced — the index
lists exactly the partition keys — and the metadata coverage field
symbolsWithData counts exactly the successful results, i.e. all keys except
the failed one. -/
theorem single_failure_isolated (m : List (String × List ProcessedOptionContract))
    (kbad : String) (sinkOk : String → Bool) (bufLen : String → ℕ)
    (hnd : (keysOf m).Nodup) (hmem : kbad ∈ keysOf m)
    (hbad : sinkOk kbad = false) (hok : ∀ k, k ≠ kbad → sinkOk k = true)
    (hlen : ∀ k, bufLen k ≤ MAX_FILE_SIZE) :
    (((processSymbols sinkOk bufLen m).map fun r => r.symbol) = keysOf m) ∧
    (∀ r ∈ processSymbols sinkOk bufLen m,
      (r.symbol = kbad → r.success = false ∧ r.error.isSome = true) ∧
      (r.symbol ≠ kbad → r.success = true)) ∧
    (∀ k, k ∈ (generateApiFiles m (processSymbols sinkOk bufLen m)).1 ↔ k ∈ keysOf m) ∧
    ((generateApiFiles m (processSymbols sinkOk bufLen m)).1.length = m.length) ∧
    ((generateApiFiles m (processSymbols sinkOk bufLen m)).2.symbolsWithData =
      ((processSymbols sinkOk bufLen m).filter fun r => r.success).length) ∧
    ((generateApiFiles m (processSymbols sinkOk bufLen m)).2.symbolsWithData =
      m.length - 1) := by
  have hidx : (generateApiFiles m (processSymbols sinkOk bufLen m)).1 =
      (keysOf m).mergeSort stringLE := rfl
  have hmeta : (generateApiFiles m (processSymbols sinkOk bufLen m)).2.symbolsWithData =
      ((processSymbols sinkOk bufLen m).filter fun r => r.success).length := rfl
  refine ⟨?_, ?_, ?_, ?_, hmeta, ?_⟩
  · unfold processSymbols keysOf
    rw [List.map_map]
    exact List.map_congr_left fun e _ => keyResult_symbol sinkOk bufLen e
  · intro r hr
    obtain ⟨e, hem, rfl⟩ := List.mem_map.mp hr
    rw [keyResult_symbol]
    constructor
    · intro hk
      rw [keyResult_sinkFail sinkOk bufLen e (by rw [hk]; exact hbad) (hlen e.1)]
      exact ⟨rfl, rfl⟩
    · intro hk
      rw [keyResult_ok sinkOk bufLen e (hok e.1 hk) (hlen e.1)]
  · intro k
    rw [hidx, List.mem_mergeSort]
  · rw [hidx, List.length_mergeSort]
    simp [keysOf]
  · rw [hmeta]
    unfold processSymbols
    rw [← List.countP_eq_length_filter, List.countP_map]
    have hcongr : (m.countP ((fun r => r.success) ∘ keyResult sinkOk bufLen)) =
        (m.countP fun e => (keyResult sinkOk bufLen e).success) := rfl
    rw [hcongr, countP_success_one_fail sinkOk bufLen kbad hbad hok hlen m hnd hmem]

/-- C2 witness: two keys, the second failing permanently. -/
theorem single_failure_isolated_witness :
    ((keysOf [(("AAPL" : String), [pA1]), (("MSFT" : String), [pB1])]).Nodup) ∧
    ("MSFT" ∈ keysOf [(("AAPL" : String), [pA1]), (("MSFT" : String), [pB1])]) ∧
    ((generateApiFiles [(("AAPL" : String), [pA1]), (("MSFT" : String), [pB1])]
        (processSymbols (fun k => !(k == "MSFT")) (fun _ => 0)
          [(("AAPL" : String), [pA1]), (("MSFT" : String), [pB1])])).2.symbolsWithData =
      2 - 1) :=
  ⟨by decide, by decide,
   (single_failure_isolated [(("AAPL" : String), [pA1]), (("MSFT" : String), [pB1])]
      "MSFT" (fun k => !(k == "MSFT")) (fun _ => 0) (by decide) (by decide)
      (by decide) (fun k hk => by simp [hk]) (fun k => by simp [MAX_FILE_SIZE])).2.2.2.2.2⟩

end OptionsApi
